import Mathlib

/-!
Verification development for `mmpose/core/visualization/effects.py`.

The four effect functions (`apply_bugeye_effect`, `apply_sunglasses_effect`,
`apply_hat_effect`, `apply_firecracker_effect`) are shallowly embedded over
exact rational arithmetic:

* an image is a pair of dimensions together with a total pixel map
  (row index, column index ↦ channel values); pixels are rational-valued
  BGR (or BGRA) tuples;
* a pose result is a bounding box `(x1, y1, x2, y2)` plus a keypoint list
  of `(x, y, score)` triples, indexed with a default of `(0, 0, 0)`
  (the claims under study never index out of range);
* `cv2.remap` with `INTER_AREA` falls back to bilinear interpolation inside
  OpenCV, so it is modelled as exact bilinear sampling with edge replication;
* `cv2.warpPerspective` is modelled as inverse-mapped bilinear sampling with
  a constant (white) border, the inverse taken by adjugate over the
  determinant (OpenCV's `invert` yields the zero matrix on singular input,
  which the model reproduces since `1/0 = 0` over `ℚ`);
* `cv2.findHomography` with four correspondences is modelled as the exact
  solution of the standard eight-equation direct-linear-transform system
  (normalised `h33 = 1`), obtained by Gaussian elimination and then checked
  against the defining equations; the checked result is returned as
  `Option`, `none` standing for the degenerate failure the Python code
  would surface;
* `cv2.copyTo(src, mask, dst)` is a masked pointwise copy; its in-place
  aliasing behaviour is captured separately by a small store-passing model.
-/

namespace Effects

/-- A BGR pixel with rational channel values. -/
abbrev Pix3 := ℚ × ℚ × ℚ

/-- A BGRA pixel (blue, green, red, alpha). -/
abbrev Pix4 := ℚ × ℚ × ℚ × ℚ

/-- A dense image: height, width and a total pixel map (row, column). -/
structure Img (α : Type) where
  h : ℕ
  w : ℕ
  pix : ℕ → ℕ → α

abbrev Img3 := Img Pix3
abbrev Img4 := Img Pix4

/-- One pose result: bounding box `(x1, y1, x2, y2)` and keypoints
`(x, y, score)`. -/
structure Pose where
  bbox : ℚ × ℚ × ℚ × ℚ
  keypoints : List (ℚ × ℚ × ℚ)

/-- `kpts[i]`, with default `(0, 0, 0)` out of range. -/
def kptOf (p : Pose) (i : ℕ) : ℚ × ℚ × ℚ := p.keypoints.getD i (0, 0, 0)

/-- `kpts[i, :2]`: keypoint coordinates. -/
def kptXY (p : Pose) (i : ℕ) : ℚ × ℚ := ((kptOf p i).1, (kptOf p i).2.1)

/-- `kpts[i, 2]`: keypoint confidence score. -/
def kptScore (p : Pose) (i : ℕ) : ℚ := (kptOf p i).2.2

/-! ### Pixel arithmetic and sampling -/

def add3 (p q : Pix3) : Pix3 := (p.1 + q.1, p.2.1 + q.2.1, p.2.2 + q.2.2)

def smul3 (c : ℚ) (p : Pix3) : Pix3 := (c * p.1, c * p.2.1, c * p.2.2)

def add4 (p q : Pix4) : Pix4 :=
  (p.1 + q.1, p.2.1 + q.2.1, p.2.2.1 + q.2.2.1, p.2.2.2 + q.2.2.2)

def smul4 (c : ℚ) (p : Pix4) : Pix4 :=
  (c * p.1, c * p.2.1, c * p.2.2.1, c * p.2.2.2)

/-- Clamp an integer index into `[0, n-1]` (`BORDER_REPLICATE`). -/
def clampIdx (n : ℕ) (i : ℤ) : ℕ := (min (max i 0) ((n : ℤ) - 1)).toNat

/-- Pixel access with edge replication. -/
def getRep (img : Img3) (y x : ℤ) : Pix3 :=
  img.pix (clampIdx img.h y) (clampIdx img.w x)

/-- Bilinear sampling at `(fx, fy)` with edge replication
(`cv2.remap` converts `INTER_AREA` to `INTER_LINEAR` internally). -/
def bilinearRep (img : Img3) (fx fy : ℚ) : Pix3 :=
  let x0 : ℤ := Rat.floor fx
  let y0 : ℤ := Rat.floor fy
  let a : ℚ := fx - (x0 : ℚ)
  let b : ℚ := fy - (y0 : ℚ)
  add3
    (add3 (smul3 ((1 - a) * (1 - b)) (getRep img y0 x0))
          (smul3 (a * (1 - b)) (getRep img y0 (x0 + 1))))
    (add3 (smul3 ((1 - a) * b) (getRep img (y0 + 1) x0))
          (smul3 (a * b) (getRep img (y0 + 1) (x0 + 1))))

/-- `cv2.remap(img, xx, yy, INTER_AREA, BORDER_REPLICATE)`: the destination
takes its size from the coordinate maps and samples the source there. -/
def remap (img : Img3) (gx gy : Img ℚ) : Img3 :=
  ⟨gx.h, gx.w, fun y x => bilinearRep img (gx.pix y x) (gy.pix y x)⟩

/-- `np.meshgrid` x-grid: entry `(y, x)` holds `x`. -/
def meshX (img : Img3) : Img ℚ := ⟨img.h, img.w, fun _ x => (x : ℚ)⟩

/-- `np.meshgrid` y-grid: entry `(y, x)` holds `y`. -/
def meshY (img : Img3) : Img ℚ := ⟨img.h, img.w, fun y _ => (y : ℚ)⟩

/-! ### Bug-eye effect (radial distortion) -/

/-- One radial-distortion update of one grid entry, from
`xx = (xx - xc) / (1 + k1 / r2) + xc` and the matching `yy` line, where
`r2 = ((xx - xc)^2 + (yy - yc)^2 + epe) / scale`. -/
def distortPoint (k1 epe scale xc yc : ℚ) (p : ℚ × ℚ) : ℚ × ℚ :=
  let r2 := ((p.1 - xc) ^ 2 + (p.2 - yc) ^ 2 + epe) / scale
  ((p.1 - xc) / (1 + k1 / r2) + xc, (p.2 - yc) / (1 + k1 / r2) + yc)

/-- Pointwise radial distortion of the coordinate-grid pair around an
anchor `(xc, yc)`. -/
def distortGrids (k1 epe scale xc yc : ℚ) (g : Img ℚ × Img ℚ) :
    Img ℚ × Img ℚ :=
  (⟨g.1.h, g.1.w, fun y x =>
      (distortPoint k1 epe scale xc yc (g.1.pix y x, g.2.pix y x)).1⟩,
   ⟨g.2.h, g.2.w, fun y x =>
      (distortPoint k1 epe scale xc yc (g.1.pix y x, g.2.pix y x)).2⟩)

/-- Eligible-branch body of one bug-eye iteration: distort the running
coordinate grids around the left then the right eye (`for xc, yc in
[kpt_leye, kpt_reye]`), then resample the image through the grids.
State is `(img, xx, yy)`; the grids persist across iterations exactly as
in the source, where the meshgrid is created before the pose loop. -/
def bugeyeBody (li ri : ℕ) (st : Img3 × Img ℚ × Img ℚ) (pose : Pose) :
    Img3 × Img ℚ × Img ℚ :=
  let k1 : ℚ := 1 / 1000
  let epe : ℚ := 1 / 100000
  let scale : ℚ := (pose.bbox.2.2.1 - pose.bbox.1) ^ 2
      + (pose.bbox.2.2.2 - pose.bbox.2.1) ^ 2
  let g := [kptXY pose li, kptXY pose ri].foldl
      (fun g c => distortGrids k1 epe scale c.1 c.2 g) (st.2.1, st.2.2)
  (remap st.1 g.1 g.2, g.1, g.2)

/-- One iteration of the bug-eye pose loop, including the confidence gate
(`if kpts[l, 2] < kpt_thr or kpts[r, 2] < kpt_thr: continue`). -/
def bugeyeStep (li ri : ℕ) (thr : ℚ) (st : Img3 × Img ℚ × Img ℚ)
    (pose : Pose) : Img3 × Img ℚ × Img ℚ :=
  if kptScore pose li < thr ∨ kptScore pose ri < thr then st
  else bugeyeBody li ri st pose

/-- `apply_bugeye_effect(img, pose_results, left_eye_index,
right_eye_index, kpt_thr=0.5)`. -/
def apply_bugeye_effect (img : Img3) (poses : List Pose) (li ri : ℕ)
    (thr : ℚ := 1 / 2) : Img3 :=
  (poses.foldl (bugeyeStep li ri thr) (img, meshX img, meshY img)).1

/-! ### Homography computation (`cv2.findHomography` on 4 points) -/

/-- A 3×3 projective matrix. -/
structure Mat3 where
  m11 : ℚ
  m12 : ℚ
  m13 : ℚ
  m21 : ℚ
  m22 : ℚ
  m23 : ℚ
  m31 : ℚ
  m32 : ℚ
  m33 : ℚ
deriving DecidableEq

/-- Apply a projective matrix to a point. -/
def applyMat3 (M : Mat3) (p : ℚ × ℚ) : ℚ × ℚ :=
  let den := M.m31 * p.1 + M.m32 * p.2 + M.m33
  ((M.m11 * p.1 + M.m12 * p.2 + M.m13) / den,
   (M.m21 * p.1 + M.m22 * p.2 + M.m23) / den)

/-- Dot product of two rational lists (zipped). -/
def dotL (a b : List ℚ) : ℚ := (List.zipWith (fun x y => x * y) a b).sum

/-- Exact Gaussian elimination with pivot search on an augmented system
(each row is the coefficient list followed by its right-hand side).
The fuel is the number of unknowns; `none` signals a singular system. -/
def gaussSolve : ℕ → List (List ℚ) → Option (List ℚ)
  | 0, _ => some []
  | n + 1, rows =>
    match rows.findIdx? (fun row => row.headD 0 != 0) with
    | none => none
    | some i =>
      let piv := rows.getD i []
      let c := piv.headD 1
      let rest := rows.eraseIdx i
      let reduced := rest.map fun row =>
        (List.zipWith (fun a p => a - row.headD 0 / c * p) row piv).drop 1
      match gaussSolve n reduced with
      | none => none
      | some sol =>
        let tl := piv.drop 1
        some ((tl.getLastD 0 - dotL tl.dropLast sol) / c :: sol)

/-- The eight augmented direct-linear-transform rows for the four point
correspondences, with the normalisation `h33 = 1`. -/
def dltRows (src tar : List (ℚ × ℚ)) : List (List ℚ) :=
  (List.zip src tar).foldr
    (fun st acc =>
      [st.1.1, st.1.2, 1, 0, 0, 0,
        -(st.2.1 * st.1.1), -(st.2.1 * st.1.2), st.2.1] ::
      [0, 0, 0, st.1.1, st.1.2, 1,
        -(st.2.2 * st.1.1), -(st.2.2 * st.1.2), st.2.2] :: acc) []

/-- Assemble the homography matrix from the solved coefficient list. -/
def mkH (sol : List ℚ) : Mat3 :=
  ⟨sol.getD 0 0, sol.getD 1 0, sol.getD 2 0, sol.getD 3 0, sol.getD 4 0,
   sol.getD 5 0, sol.getD 6 0, sol.getD 7 0, 1⟩

/-- Check that a candidate homography satisfies the homogeneous
correspondence equations for every given pair. -/
def homogOK (H : Mat3) (pts : List ((ℚ × ℚ) × (ℚ × ℚ))) : Bool :=
  pts.all fun st =>
    decide (H.m11 * st.1.1 + H.m12 * st.1.2 + H.m13
        = st.2.1 * (H.m31 * st.1.1 + H.m32 * st.1.2 + H.m33)
      ∧ H.m21 * st.1.1 + H.m22 * st.1.2 + H.m23
        = st.2.2 * (H.m31 * st.1.1 + H.m32 * st.1.2 + H.m33))

/-- `cv2.findHomography(pts_src, pts_tar)` for four correspondences:
the exactly-determined projective transform, or `none` when the
configuration is degenerate. The solved matrix is verified against the
defining equations before being returned. -/
def findHomography (src tar : List (ℚ × ℚ)) : Option Mat3 :=
  match gaussSolve 8 (dltRows src tar) with
  | none => none
  | some sol =>
    let H := mkH sol
    if homogOK H (List.zip src tar) then some H else none

/-! ### Perspective warping and masked copy -/

/-- Determinant of a 3×3 matrix. -/
def det3 (M : Mat3) : ℚ :=
  M.m11 * (M.m22 * M.m33 - M.m23 * M.m32)
    - M.m12 * (M.m21 * M.m33 - M.m23 * M.m31)
    + M.m13 * (M.m21 * M.m32 - M.m22 * M.m31)

/-- Matrix inverse by adjugate over determinant. On singular input the
division by zero yields the zero matrix, matching OpenCV's `invert`,
which sets the output to zeros for a singular source. -/
def inv3 (M : Mat3) : Mat3 :=
  let d := det3 M
  ⟨(M.m22 * M.m33 - M.m23 * M.m32) / d,
   (M.m13 * M.m32 - M.m12 * M.m33) / d,
   (M.m12 * M.m23 - M.m13 * M.m22) / d,
   (M.m23 * M.m31 - M.m21 * M.m33) / d,
   (M.m11 * M.m33 - M.m13 * M.m31) / d,
   (M.m13 * M.m21 - M.m11 * M.m23) / d,
   (M.m21 * M.m32 - M.m22 * M.m31) / d,
   (M.m12 * M.m31 - M.m11 * M.m32) / d,
   (M.m11 * M.m22 - M.m12 * M.m21) / d⟩

/-- Pixel access with a constant border colour (`BORDER_CONSTANT`). -/
def getConst3 (img : Img3) (border : Pix3) (y x : ℤ) : Pix3 :=
  if 0 ≤ y ∧ y < (img.h : ℤ) ∧ 0 ≤ x ∧ x < (img.w : ℤ) then
    img.pix y.toNat x.toNat
  else border

/-- Bilinear sampling with a constant border colour. -/
def bilinearConst3 (img : Img3) (border : Pix3) (fx fy : ℚ) : Pix3 :=
  let x0 : ℤ := Rat.floor fx
  let y0 : ℤ := Rat.floor fy
  let a : ℚ := fx - (x0 : ℚ)
  let b : ℚ := fy - (y0 : ℚ)
  add3
    (add3 (smul3 ((1 - a) * (1 - b)) (getConst3 img border y0 x0))
          (smul3 (a * (1 - b)) (getConst3 img border y0 (x0 + 1))))
    (add3 (smul3 ((1 - a) * b) (getConst3 img border (y0 + 1) x0))
          (smul3 (a * b) (getConst3 img border (y0 + 1) (x0 + 1))))

/-- Four-channel pixel access with a constant border colour. -/
def getConst4 (img : Img4) (border : Pix4) (y x : ℤ) : Pix4 :=
  if 0 ≤ y ∧ y < (img.h : ℤ) ∧ 0 ≤ x ∧ x < (img.w : ℤ) then
    img.pix y.toNat x.toNat
  else border

/-- Four-channel bilinear sampling with a constant border colour. -/
def bilinearConst4 (img : Img4) (border : Pix4) (fx fy : ℚ) : Pix4 :=
  let x0 : ℤ := Rat.floor fx
  let y0 : ℤ := Rat.floor fy
  let a : ℚ := fx - (x0 : ℚ)
  let b : ℚ := fy - (y0 : ℚ)
  add4
    (add4 (smul4 ((1 - a) * (1 - b)) (getConst4 img border y0 x0))
          (smul4 (a * (1 - b)) (getConst4 img border y0 (x0 + 1))))
    (add4 (smul4 ((1 - a) * b) (getConst4 img border (y0 + 1) x0))
          (smul4 (a * b) (getConst4 img border (y0 + 1) (x0 + 1))))

/-- `cv2.warpPerspective(src, M, dsize=(dw, dh), borderValue)`: each
destination pixel is pulled through the inverted transform; a vanishing
homogeneous coordinate falls to the border colour. -/
def warpPerspective3 (src : Img3) (M : Mat3) (dw dh : ℕ) (border : Pix3) :
    Img3 :=
  let Mi := inv3 M
  ⟨dh, dw, fun y x =>
    let den := Mi.m31 * (x : ℚ) + Mi.m32 * (y : ℚ) + Mi.m33
    if den = 0 then border
    else
      bilinearConst3 src border
        ((Mi.m11 * (x : ℚ) + Mi.m12 * (y : ℚ) + Mi.m13) / den)
        ((Mi.m21 * (x : ℚ) + Mi.m22 * (y : ℚ) + Mi.m23) / den)⟩

/-- Four-channel `cv2.warpPerspective`. A three-channel `borderValue`
scalar is zero-padded by OpenCV, so the hat call passes border alpha 0. -/
def warpPerspective4 (src : Img4) (M : Mat3) (dw dh : ℕ) (border : Pix4) :
    Img4 :=
  let Mi := inv3 M
  ⟨dh, dw, fun y x =>
    let den := Mi.m31 * (x : ℚ) + Mi.m32 * (y : ℚ) + Mi.m33
    if den = 0 then border
    else
      bilinearConst4 src border
        ((Mi.m11 * (x : ℚ) + Mi.m12 * (y : ℚ) + Mi.m13) / den)
        ((Mi.m21 * (x : ℚ) + Mi.m22 * (y : ℚ) + Mi.m23) / den)⟩

/-- `cv2.cvtColor(p, COLOR_BGR2GRAY)` on one pixel, with the standard
luma weights (exact rational form of 0.299 R + 0.587 G + 0.114 B). -/
def bgr2gray (p : Pix3) : ℚ :=
  (114 * p.1 + 587 * p.2.1 + 299 * p.2.2) / 1000

/-- Blue, green, red channels of a BGRA pixel (`patch[:, :, :-1]`). -/
def dropAlpha (p : Pix4) : Pix3 := (p.1, p.2.1, p.2.2.1)

/-- Alpha channel of a BGRA pixel (`patch[:, :, -1]`). -/
def alpha4 (p : Pix4) : ℚ := p.2.2.2

/-- Drop the alpha channel of a four-channel image. -/
def stripAlpha (img : Img4) : Img3 :=
  ⟨img.h, img.w, fun y x => dropAlpha (img.pix y x)⟩

/-- `cv2.copyTo(src, mask, dst)` as a value: destination pixels with the
mask set take the source value, all others keep the destination value. -/
def copyTo3 (src : Img3) (mask : ℕ → ℕ → Bool) (dst : Img3) : Img3 :=
  ⟨dst.h, dst.w, fun y x => if mask y x then src.pix y x else dst.pix y x⟩

/-- Sunglasses mask: warped-patch grayscale strictly below 200. -/
def sunglassesMask (patch : Img3) : ℕ → ℕ → Bool :=
  fun y x => decide (bgr2gray (patch.pix y x) < 200)

/-- Firecracker mask: warped-patch grayscale strictly below 240. -/
def firecrackerMask (patch : Img3) : ℕ → ℕ → Bool :=
  fun y x => decide (bgr2gray (patch.pix y x) < 240)

/-- Hat mask: alpha strictly above 128 and colour grayscale strictly
above 30 (`(patch[:, :, -1] > 128) * (gray(patch[:, :, :-1]) > 30)`). -/
def hatMask (patch : Img4) : ℕ → ℕ → Bool :=
  fun y x =>
    decide (128 < alpha4 (patch.pix y x))
      && decide (30 < bgr2gray (dropAlpha (patch.pix y x)))

/-! ### Point helpers for anchor geometry -/

def padd (p q : ℚ × ℚ) : ℚ × ℚ := (p.1 + q.1, p.2 + q.2)

def psub (p q : ℚ × ℚ) : ℚ × ℚ := (p.1 - q.1, p.2 - q.2)

def pscale (c : ℚ) (p : ℚ × ℚ) : ℚ × ℚ := (c * p.1, c * p.2)

/-- Rotation of a plane vector by 90 degrees. -/
def rot90 (p : ℚ × ℚ) : ℚ × ℚ := (-p.2, p.1)

/-- `vo = 0.5 * (kpt_reye - kpt_leye)[::-1] * [-1, 1]`: reverse the
difference vector, negate its first component, halve. -/
def vOrth (kleye kreye : ℚ × ℚ) : ℚ × ℚ :=
  let d := psub kreye kleye
  pscale (1 / 2) ((-1) * d.2, 1 * d.1)

/-! ### Sunglasses effect -/

/-- Sunglasses source anchors at 0.3/0.7 of the asset extent. -/
def sunglassesSrcPts (wm hm : ℕ) : List (ℚ × ℚ) :=
  [(3 / 10 * (wm : ℚ), 3 / 10 * (hm : ℚ)),
   (3 / 10 * (wm : ℚ), 7 / 10 * (hm : ℚ)),
   (7 / 10 * (wm : ℚ), 3 / 10 * (hm : ℚ)),
   (7 / 10 * (wm : ℚ), 7 / 10 * (hm : ℚ))]

/-- Sunglasses target anchors
`[reye + vo, reye - vo, leye + vo, leye - vo]`. -/
def sunglassesTarPts (kleye kreye : ℚ × ℚ) : List (ℚ × ℚ) :=
  let vo := vOrth kleye kreye
  [padd kreye vo, psub kreye vo, padd kleye vo, psub kleye vo]

/-- Eligible-branch body of one sunglasses iteration: homography, warp
with white border, threshold mask, masked copy. -/
def sunglassesBody (sg : Img3) (li ri : ℕ) (img : Img3) (pose : Pose) :
    Option Img3 :=
  match findHomography (sunglassesSrcPts sg.w sg.h)
      (sunglassesTarPts (kptXY pose li) (kptXY pose ri)) with
  | none => none
  | some hmat =>
    let patch := warpPerspective3 sg hmat img.w img.h (255, 255, 255)
    some (copyTo3 patch (sunglassesMask patch) img)

/-- One iteration of the sunglasses pose loop with the confidence gate. -/
def sunglassesStep (sg : Img3) (li ri : ℕ) (thr : ℚ) (img : Img3)
    (pose : Pose) : Option Img3 :=
  if kptScore pose li < thr ∨ kptScore pose ri < thr then some img
  else sunglassesBody sg li ri img pose

/-- `apply_sunglasses_effect(img, pose_results, sunglasses_img,
left_eye_index, right_eye_index, kpt_thr=0.5)`. -/
def apply_sunglasses_effect (img : Img3) (poses : List Pose) (sg : Img3)
    (li ri : ℕ) (thr : ℚ := 1 / 2) : Option Img3 :=
  poses.foldlM (sunglassesStep sg li ri thr) img

/-! ### Hat effect -/

/-- Hat source anchors, with `a = 0.3`, `b = 0.7` as in the source. -/
def hatSrcPts (wm hm : ℕ) : List (ℚ × ℚ) :=
  let a : ℚ := 3 / 10
  let b : ℚ := 7 / 10
  [(a * (wm : ℚ), a * (hm : ℚ)), (a * (wm : ℚ), b * (hm : ℚ)),
   (b * (wm : ℚ), a * (hm : ℚ)), (b * (wm : ℚ), b * (hm : ℚ))]

/-- Hat target anchors
`[reye + 1*veye + 5*vo, reye + 1*veye + 1*vo,
  leye - 1*veye + 5*vo, leye - 1*veye + 1*vo]`. -/
def hatTarPts (kleye kreye : ℚ × ℚ) : List (ℚ × ℚ) :=
  let vo := vOrth kleye kreye
  let veye := pscale (1 / 2) (psub kreye kleye)
  [padd (padd kreye (pscale 1 veye)) (pscale 5 vo),
   padd (padd kreye (pscale 1 veye)) (pscale 1 vo),
   padd (psub kleye (pscale 1 veye)) (pscale 5 vo),
   padd (psub kleye (pscale 1 veye)) (pscale 1 vo)]

/-- Eligible-branch body of one hat iteration: homography, four-channel
warp, alpha-and-brightness mask, masked copy of the colour channels. -/
def hatBody (hat : Img4) (li ri : ℕ) (img : Img3) (pose : Pose) :
    Option Img3 :=
  match findHomography (hatSrcPts hat.w hat.h)
      (hatTarPts (kptXY pose li) (kptXY pose ri)) with
  | none => none
  | some hmat =>
    let patch4 := warpPerspective4 hat hmat img.w img.h (255, 255, 255, 0)
    some (copyTo3 (stripAlpha patch4) (hatMask patch4) img)

/-- One iteration of the hat pose loop with the confidence gate. -/
def hatStep (hat : Img4) (li ri : ℕ) (thr : ℚ) (img : Img3) (pose : Pose) :
    Option Img3 :=
  if kptScore pose li < thr ∨ kptScore pose ri < thr then some img
  else hatBody hat li ri img pose

/-- `apply_hat_effect(img, pose_results, hat_img, left_eye_index,
right_eye_index, kpt_thr=0.5)`. The two initial `copy()` calls are
invisible at the level of image values; they matter only for aliasing and
are modelled in the store-passing semantics below. -/
def apply_hat_effect (img : Img3) (poses : List Pose) (hat : Img4)
    (li ri : ℕ) (thr : ℚ := 1 / 2) : Option Img3 :=
  poses.foldlM (hatStep hat li ri thr) img

/-! ### Firecracker effect -/

/-- Firecracker source anchors: the four corners of the asset. -/
def fcSrcPts (wm hm : ℕ) : List (ℚ × ℚ) :=
  [(0 * (wm : ℚ), 0 * (hm : ℚ)), (0 * (wm : ℚ), 1 * (hm : ℚ)),
   (1 * (wm : ℚ), 0 * (hm : ℚ)), (1 * (wm : ℚ), 1 * (hm : ℚ))]

/-- Firecracker target anchors around one wrist:
`[kpt - [w/2, 0], kpt - [w/2, -h], kpt + [w/2, 0], kpt + [w/2, h]]`. -/
def fcTarPts (wrist : ℚ × ℚ) (h_tar w_tar : ℚ) : List (ℚ × ℚ) :=
  [psub wrist (w_tar / 2, 0), psub wrist (w_tar / 2, -h_tar),
   padd wrist (w_tar / 2, 0), padd wrist (w_tar / 2, h_tar)]

/-- One single-wrist firecracker overlay: homography, warp with white
border, threshold-240 mask, masked copy. -/
def fcSide (fc : Img3) (src_pts : List (ℚ × ℚ)) (h_tar w_tar : ℚ)
    (wrist : ℚ × ℚ) (img : Img3) : Option Img3 :=
  match findHomography src_pts (fcTarPts wrist h_tar w_tar) with
  | none => none
  | some hmat =>
    let patch := warpPerspective3 fc hmat img.w img.h (255, 255, 255)
    some (copyTo3 patch (firecrackerMask patch) img)

/-- One iteration of the firecracker pose loop: the left-wrist overlay
then the right-wrist overlay, each gated by a strict comparison
(`kpts[idx, 2] > kpt_thr`) and applied sequentially to the same image. -/
def firecrackerStep (fc : Img3) (li ri : ℕ) (thr : ℚ)
    (src_pts : List (ℚ × ℚ)) (h_tar w_tar : ℚ) (img : Img3) (pose : Pose) :
    Option Img3 :=
  (if thr < kptScore pose li then
      fcSide fc src_pts h_tar w_tar (kptXY pose li) img
    else some img).bind
    fun img1 =>
      if thr < kptScore pose ri then
        fcSide fc src_pts h_tar w_tar (kptXY pose ri) img1
      else some img1

/-- `apply_firecracker_effect(img, pose_results, firecracker_img,
left_wrist_idx, right_wrist_idx, kpt_thr=0.5)`: the target height is a
third of the scene height and the width preserves the asset's aspect. -/
def apply_firecracker_effect (img : Img3) (poses : List Pose) (fc : Img3)
    (li ri : ℕ) (thr : ℚ := 1 / 2) : Option Img3 :=
  let src_pts := fcSrcPts fc.w fc.h
  let h_tar : ℚ := (img.h : ℚ) / 3
  let w_tar : ℚ := h_tar / (fc.h : ℚ) * (fc.w : ℚ)
  poses.foldlM (firecrackerStep fc li ri thr src_pts h_tar w_tar) img

/-! ### Store-passing model of buffer aliasing

The Python functions operate on numpy arrays. `cv2.remap` and
`cv2.warpPerspective` allocate fresh output arrays, `img.copy()` allocates
a fresh copy, while `cv2.copyTo(src, mask, dst)` writes into the existing
`dst` buffer in place and returns that same buffer. To reason about which
buffer the caller ends up observing, the loops are re-run over an explicit
store mapping buffer ids to image values, threading a fresh-id counter and
the id currently bound to the Python variable `img`. -/

/-- A store of three-channel image buffers, addressed by id. -/
abbrev Store := ℕ → Img3

/-- Store-level sunglasses iteration on `(store, next fresh id, img id)`:
the warped patch goes to a fresh buffer, `cv2.copyTo` overwrites the
buffer currently bound to `img` in place. -/
def heapSunglassesStep (sg : Img3) (li ri : ℕ) (thr : ℚ)
    (st : Store × ℕ × ℕ) (pose : Pose) : Option (Store × ℕ × ℕ) :=
  if kptScore pose li < thr ∨ kptScore pose ri < thr then some st
  else
    let img0 := st.1 st.2.2
    match findHomography (sunglassesSrcPts sg.w sg.h)
        (sunglassesTarPts (kptXY pose li) (kptXY pose ri)) with
    | none => none
    | some hmat =>
      let patch := warpPerspective3 sg hmat img0.w img0.h (255, 255, 255)
      let σ1 := Function.update st.1 st.2.1 patch
      let σ2 := Function.update σ1 st.2.2
          (copyTo3 patch (sunglassesMask patch) img0)
      some (σ2, st.2.1 + 1, st.2.2)

/-- Store-level `apply_sunglasses_effect`: the loop reads and writes the
caller's buffer throughout. -/
def heapSunglassesRun (σ : Store) (n r : ℕ) (poses : List Pose) (sg : Img3)
    (li ri : ℕ) (thr : ℚ) : Option (Store × ℕ × ℕ) :=
  poses.foldlM (heapSunglassesStep sg li ri thr) (σ, n, r)

/-- Store-level hat iteration; identical shape, with the four-channel
warp and hat mask (the stripped patch is the fresh allocation kept in the
store). -/
def heapHatStep (hat : Img4) (li ri : ℕ) (thr : ℚ) (st : Store × ℕ × ℕ)
    (pose : Pose) : Option (Store × ℕ × ℕ) :=
  if kptScore pose li < thr ∨ kptScore pose ri < thr then some st
  else
    let img0 := st.1 st.2.2
    match findHomography (hatSrcPts hat.w hat.h)
        (hatTarPts (kptXY pose li) (kptXY pose ri)) with
    | none => none
    | some hmat =>
      let patch4 := warpPerspective4 hat hmat img0.w img0.h (255, 255, 255, 0)
      let σ1 := Function.update st.1 st.2.1 (stripAlpha patch4)
      let σ2 := Function.update σ1 st.2.2
          (copyTo3 (stripAlpha patch4) (hatMask patch4) img0)
      some (σ2, st.2.1 + 1, st.2.2)

/-- Store-level `apply_hat_effect`: `img_orig = img.copy()` then
`img = img_orig.copy()` allocate two fresh buffers before the loop, and
the loop then works on the second copy only. -/
def heapHatRun (σ : Store) (n r : ℕ) (poses : List Pose) (hat : Img4)
    (li ri : ℕ) (thr : ℚ) : Option (Store × ℕ × ℕ) :=
  let σ1 := Function.update σ n (σ r)
  let σ2 := Function.update σ1 (n + 1) (σ1 n)
  poses.foldlM (heapHatStep hat li ri thr) (σ2, n + 2, n + 1)

/-- Store-level single-wrist firecracker overlay on `(store, next, img id)`. -/
def heapFcSide (fc : Img3) (src_pts : List (ℚ × ℚ)) (h_tar w_tar : ℚ)
    (wrist : ℚ × ℚ) (st : Store × ℕ × ℕ) : Option (Store × ℕ × ℕ) :=
  let img0 := st.1 st.2.2
  match findHomography src_pts (fcTarPts wrist h_tar w_tar) with
  | none => none
  | some hmat =>
    let patch := warpPerspective3 fc hmat img0.w img0.h (255, 255, 255)
    let σ1 := Function.update st.1 st.2.1 patch
    let σ2 := Function.update σ1 st.2.2
        (copyTo3 patch (firecrackerMask patch) img0)
    some (σ2, st.2.1 + 1, st.2.2)

/-- Store-level firecracker iteration: left side then right side, both
overwriting the buffer bound to `img` in place. -/
def heapFcStep (fc : Img3) (li ri : ℕ) (thr : ℚ) (src_pts : List (ℚ × ℚ))
    (h_tar w_tar : ℚ) (st : Store × ℕ × ℕ) (pose : Pose) :
    Option (Store × ℕ × ℕ) :=
  (if thr < kptScore pose li then
      heapFcSide fc src_pts h_tar w_tar (kptXY pose li) st
    else some st).bind
    fun st1 =>
      if thr < kptScore pose ri then
        heapFcSide fc src_pts h_tar w_tar (kptXY pose ri) st1
      else some st1

/-- Store-level `apply_firecracker_effect`. -/
def heapFcRun (σ : Store) (n r : ℕ) (poses : List Pose) (fc : Img3)
    (li ri : ℕ) (thr : ℚ) : Option (Store × ℕ × ℕ) :=
  let src_pts := fcSrcPts fc.w fc.h
  let h_tar : ℚ := ((σ r).h : ℚ) / 3
  let w_tar : ℚ := h_tar / (fc.h : ℚ) * (fc.w : ℚ)
  poses.foldlM (heapFcStep fc li ri thr src_pts h_tar w_tar) (σ, n, r)

/-! ### Concrete instances used by witnesses and counterexamples -/

/-- A 3×3 uniform grey scene image. -/
def imgC : Img3 := ⟨3, 3, fun _ _ => (100, 100, 100)⟩

/-- A 1×1 black asset image. -/
def fcC : Img3 := ⟨1, 1, fun _ _ => (0, 0, 0)⟩

/-- A 1×1 black four-channel asset with full alpha. -/
def hatC : Img4 := ⟨1, 1, fun _ _ => (0, 0, 0, 255)⟩

/-- A pose whose keypoint 0 sits at `(1, 1)` with confidence exactly
`1/2` and whose keypoint 1 has confidence `0`. -/
def poseC1 : Pose := ⟨(0, 0, 0, 0), [(1, 1, 1 / 2), (0, 0, 0)]⟩

/-- A pose both of whose first two keypoints have confidence `0`. -/
def poseSkip : Pose := ⟨(0, 0, 0, 0), [(0, 0, 0), (0, 0, 0)]⟩

/-- A 2×2 image with four distinct grey levels. -/
def imgB : Img3 := ⟨2, 2, fun y x =>
  if y = 0 ∧ x = 0 then (0, 0, 0)
  else if y = 0 then (60, 60, 60)
  else if x = 0 then (120, 120, 120)
  else (240, 240, 240)⟩

/-- A fully-confident pose with eyes at `(1/5, 3/10)` and `(6/5, 4/5)`
and a wide bounding box. -/
def poseB1 : Pose := ⟨(0, 0, 100, 0), [(1 / 5, 3 / 10, 1), (6 / 5, 4 / 5, 1)]⟩

/-- A fully-confident pose with eyes at `(3/2, 3/2)` and `(1/2, 1)`
and the same wide bounding box. -/
def poseB2 : Pose := ⟨(0, 0, 100, 0), [(3 / 2, 3 / 2, 1), (1 / 2, 1, 1)]⟩

/-- A store holding the grey scene image in every buffer. -/
def storeC : Store := fun _ => imgC

/-! ### Shared lemmas -/

theorem sunglassesStep_dims {sg : Img3} {li ri : ℕ} {thr : ℚ} {img : Img3}
    {pose : Pose} {out : Img3} (h : sunglassesStep sg li ri thr img pose = some out) :
    out.h = img.h ∧ out.w = img.w := by
  unfold sunglassesStep sunglassesBody at h
  split at h
  · cases h; exact ⟨rfl, rfl⟩
  · split at h
    · cases h
    · cases h; exact ⟨rfl, rfl⟩

theorem hatStep_dims {hat : Img4} {li ri : ℕ} {thr : ℚ} {img : Img3}
    {pose : Pose} {out : Img3} (h : hatStep hat li ri thr img pose = some out) :
    out.h = img.h ∧ out.w = img.w := by
  unfold hatStep hatBody at h
  split at h
  · cases h; exact ⟨rfl, rfl⟩
  · split at h
    · cases h
    · cases h; exact ⟨rfl, rfl⟩

theorem fcSide_dims {fc : Img3} {src_pts : List (ℚ × ℚ)} {h_tar w_tar : ℚ}
    {wrist : ℚ × ℚ} {img : Img3} {out : Img3}
    (h : fcSide fc src_pts h_tar w_tar wrist img = some out) :
    out.h = img.h ∧ out.w = img.w := by
  unfold fcSide at h
  split at h
  · cases h
  · cases h; exact ⟨rfl, rfl⟩

theorem firecrackerStep_dims {fc : Img3} {li ri : ℕ} {thr : ℚ}
    {src_pts : List (ℚ × ℚ)} {h_tar w_tar : ℚ} {img : Img3} {pose : Pose}
    {out : Img3}
    (h : firecrackerStep fc li ri thr src_pts h_tar w_tar img pose = some out) :
    out.h = img.h ∧ out.w = img.w := by
  unfold firecrackerStep at h
  by_cases h1 : thr < kptScore pose li
  · rw [if_pos h1] at h
    cases hs : fcSide fc src_pts h_tar w_tar (kptXY pose li) img with
    | none => rw [hs] at h; cases h
    | some mid =>
      rw [hs] at h
      have hmid := fcSide_dims hs
      simp only [Option.bind_eq_bind, Option.some_bind] at h
      by_cases h2 : thr < kptScore pose ri
      · rw [if_pos h2] at h
        have hout := fcSide_dims h
        exact ⟨hout.1.trans hmid.1, hout.2.trans hmid.2⟩
      · rw [if_neg h2] at h; cases h; exact hmid
  · rw [if_neg h1] at h
    simp only [Option.some_bind] at h
    by_cases h2 : thr < kptScore pose ri
    · rw [if_pos h2] at h
      exact fcSide_dims h
    · rw [if_neg h2] at h; cases h; exact ⟨rfl, rfl⟩

theorem foldlM_dims {f : Img3 → Pose → Option Img3}
    (hf : ∀ i p o, f i p = some o → o.h = i.h ∧ o.w = i.w) :
    ∀ (l : List Pose) (i o : Img3), List.foldlM f i l = some o →
      o.h = i.h ∧ o.w = i.w := by
  intro l
  induction l with
  | nil =>
    intro i o h
    simp only [List.foldlM_nil, pure, Option.some.injEq] at h
    subst h; exact ⟨rfl, rfl⟩
  | cons p l ih =>
    intro i o h
    rw [List.foldlM_cons] at h
    cases hfi : f i p with
    | none => rw [hfi] at h; exact absurd h (by simp)
    | some m =>
      rw [hfi] at h
      simp only [Option.bind_eq_bind, Option.some_bind] at h
      have h1 := ih m o h
      have h2 := hf i p m hfi
      exact ⟨h1.1.trans h2.1, h1.2.trans h2.2⟩

theorem bugeye_foldl_dims (li ri : ℕ) (thr : ℚ) (H W : ℕ) :
    ∀ (poses : List Pose) (st : Img3 × Img ℚ × Img ℚ),
      st.1.h = H → st.1.w = W → st.2.1.h = H → st.2.1.w = W →
      st.2.2.h = H → st.2.2.w = W →
      (poses.foldl (bugeyeStep li ri thr) st).1.h = H ∧
        (poses.foldl (bugeyeStep li ri thr) st).1.w = W := by
  intro poses
  induction poses with
  | nil => intro st h1 h2 _ _ _ _; exact ⟨h1, h2⟩
  | cons p l ih =>
    intro st h1 h2 h3 h4 h5 h6
    rw [List.foldl_cons]
    by_cases hg : kptScore p li < thr ∨ kptScore p ri < thr
    · have hstep : bugeyeStep li ri thr st p = st := by
        simp [bugeyeStep, hg]
      rw [hstep]; exact ih st h1 h2 h3 h4 h5 h6
    · have hstep : bugeyeStep li ri thr st p = bugeyeBody li ri st p := by
        simp [bugeyeStep, hg]
      rw [hstep]
      exact ih _ h3 h4 h3 h4 h5 h6

/-! ### Claim C4: masking policy of the three overlay effects -/

/-- C4: in every overlay composite, a warped-buffer pixel is copied into
the scene exactly when it passes the variant's mask predicate — sunglasses:
grayscale < 200; firecracker: grayscale < 240; hat: alpha > 128 and colour
grayscale > 30 — and every scene pixel whose mask bit is unset keeps its
previous value (hard masked copy, no blending). -/
theorem mask_copy_characterization :
    (∀ (patch img : Img3) (y x : ℕ),
      (copyTo3 patch (sunglassesMask patch) img).pix y x
        = if bgr2gray (patch.pix y x) < 200 then patch.pix y x
          else img.pix y x)
    ∧ (∀ (patch4 : Img4) (img : Img3) (y x : ℕ),
      (copyTo3 (stripAlpha patch4) (hatMask patch4) img).pix y x
        = if 128 < alpha4 (patch4.pix y x)
              ∧ 30 < bgr2gray (dropAlpha (patch4.pix y x)) then
            dropAlpha (patch4.pix y x)
          else img.pix y x)
    ∧ (∀ (patch img : Img3) (y x : ℕ),
      (copyTo3 patch (firecrackerMask patch) img).pix y x
        = if bgr2gray (patch.pix y x) < 240 then patch.pix y x
          else img.pix y x) := by
  refine ⟨fun patch img y x => ?_, fun patch4 img y x => ?_,
    fun patch img y x => ?_⟩
  · simp [copyTo3, sunglassesMask]
  · simp [copyTo3, hatMask, stripAlpha, Bool.and_eq_true, decide_eq_true_eq]
  · simp [copyTo3, firecrackerMask]

/-! ### Claim C6: anchor geometry of sunglasses and hat -/

/-- C6: the sunglasses target anchors are the two eye positions offset by
plus and minus half the eye-to-eye vector rotated 90 degrees, the hat
target anchors additionally stretch by the half eye-to-eye vector and use
the orthogonal offset scaled by 5 and by 1, and both variants share the
source anchors at 30 and 70 percent of the asset width and height, paired
index-for-index. -/
theorem anchor_geometry :
    ∀ (kleye kreye : ℚ × ℚ) (wm hm : ℕ),
      sunglassesTarPts kleye kreye =
        [padd kreye (pscale (1 / 2) (rot90 (psub kreye kleye))),
         psub kreye (pscale (1 / 2) (rot90 (psub kreye kleye))),
         padd kleye (pscale (1 / 2) (rot90 (psub kreye kleye))),
         psub kleye (pscale (1 / 2) (rot90 (psub kreye kleye)))]
      ∧ hatTarPts kleye kreye =
        [padd (padd kreye (pscale (1 / 2) (psub kreye kleye)))
           (pscale 5 (pscale (1 / 2) (rot90 (psub kreye kleye)))),
         padd (padd kreye (pscale (1 / 2) (psub kreye kleye)))
           (pscale 1 (pscale (1 / 2) (rot90 (psub kreye kleye)))),
         padd (psub kleye (pscale (1 / 2) (psub kreye kleye)))
           (pscale 5 (pscale (1 / 2) (rot90 (psub kreye kleye)))),
         padd (psub kleye (pscale (1 / 2) (psub kreye kleye)))
           (pscale 1 (pscale (1 / 2) (rot90 (psub kreye kleye))))]
      ∧ sunglassesSrcPts wm hm =
        [(30 / 100 * (wm : ℚ), 30 / 100 * (hm : ℚ)),
         (30 / 100 * (wm : ℚ), 70 / 100 * (hm : ℚ)),
         (70 / 100 * (wm : ℚ), 30 / 100 * (hm : ℚ)),
         (70 / 100 * (wm : ℚ), 70 / 100 * (hm : ℚ))]
      ∧ hatSrcPts wm hm = sunglassesSrcPts wm hm := by
  intro kleye kreye wm hm
  refine ⟨?_, ?_, ?_, ?_⟩
  · simp only [sunglassesTarPts, vOrth, padd, psub, pscale, rot90,
      List.cons.injEq, Prod.mk.injEq, and_true]
    norm_num
  · simp only [hatTarPts, vOrth, padd, psub, pscale, rot90,
      List.cons.injEq, Prod.mk.injEq, and_true]
    norm_num
  · simp only [sunglassesSrcPts, List.cons.injEq, Prod.mk.injEq, and_true]
    norm_num
  · simp only [hatSrcPts, sunglassesSrcPts]

/-! ### Claim C8: the distortion fixes its anchor point -/

/-- C8: for every anchor, every distortion coefficient and every positive
scale, a grid coordinate equal to the anchor is mapped to the anchor, and
the epsilon-regularised normalised radius at the anchor is nonzero, so no
division by zero occurs there. -/
theorem distortion_fixed_point :
    ∀ (k1 scale xc yc : ℚ), 0 < scale →
      distortPoint k1 (1 / 100000) scale xc yc (xc, yc) = (xc, yc)
      ∧ ((xc - xc) ^ 2 + (yc - yc) ^ 2 + 1 / 100000) / scale ≠ 0 := by
  intro k1 scale xc yc hs
  constructor
  · simp [distortPoint]
  · simp only [sub_self, ne_eq]
    positivity

/-- Witness for C8 at `k1 = 5`, `scale = 2`, anchor `(7, 9)`. -/
theorem distortion_fixed_point_witness :
    distortPoint 5 (1 / 100000) 2 7 9 (7, 9) = (7, 9)
    ∧ ((7 - 7 : ℚ) ^ 2 + (9 - 9) ^ 2 + 1 / 100000) / 2 ≠ 0 :=
  distortion_fixed_point 5 2 7 9 (by norm_num)

/-! ### Claim C5: firecracker sizing, anchoring and per-side gating -/

/-- C5: the firecracker target rectangle hangs from the wrist with height
`h_tar` and width `w_tar`, the effect computes `h_tar` as a third of the
scene height and `w_tar` aspect-preservingly from the asset, and with
left-wrist confidence 0.9, right-wrist confidence 0.3 and threshold 0.5
only the left-side overlay is composited. -/
theorem firecracker_geometry_and_scenario :
    (∀ (img : Img3) (poses : List Pose) (fc : Img3) (li ri : ℕ) (thr : ℚ),
      apply_firecracker_effect img poses fc li ri thr
        = poses.foldlM
            (firecrackerStep fc li ri thr (fcSrcPts fc.w fc.h)
              ((img.h : ℚ) / 3) ((img.h : ℚ) / 3 / (fc.h : ℚ) * (fc.w : ℚ)))
            img)
    ∧ (∀ (wrist : ℚ × ℚ) (h_tar w_tar : ℚ),
      fcTarPts wrist h_tar w_tar
        = [(wrist.1 - w_tar / 2, wrist.2),
           (wrist.1 - w_tar / 2, wrist.2 + h_tar),
           (wrist.1 + w_tar / 2, wrist.2),
           (wrist.1 + w_tar / 2, wrist.2 + h_tar)])
    ∧ (∀ (img fc : Img3) (lx ly rx ry : ℚ),
      apply_firecracker_effect img
          [⟨(0, 0, 0, 0), [(lx, ly, 9 / 10), (rx, ry, 3 / 10)]⟩] fc 0 1
          (1 / 2)
        = fcSide fc (fcSrcPts fc.w fc.h) ((img.h : ℚ) / 3)
            ((img.h : ℚ) / 3 / (fc.h : ℚ) * (fc.w : ℚ)) (lx, ly) img) := by
  refine ⟨fun img poses fc li ri thr => rfl, fun wrist h_tar w_tar => ?_,
    fun img fc lx ly rx ry => ?_⟩
  · simp only [fcTarPts, psub, padd, List.cons.injEq, Prod.mk.injEq, and_true]
    norm_num
  · have hl : (1 / 2 : ℚ) < 9 / 10 := by norm_num
    have hr : ¬ ((1 / 2 : ℚ) < 3 / 10) := by norm_num
    have hk0 : kptScore ⟨(0, 0, 0, 0), [(lx, ly, 9 / 10), (rx, ry, 3 / 10)]⟩ 0
        = 9 / 10 := rfl
    have hk1 : kptScore ⟨(0, 0, 0, 0), [(lx, ly, 9 / 10), (rx, ry, 3 / 10)]⟩ 1
        = 3 / 10 := rfl
    have hxy : kptXY ⟨(0, 0, 0, 0), [(lx, ly, 9 / 10), (rx, ry, 3 / 10)]⟩ 0
        = (lx, ly) := rfl
    simp only [apply_firecracker_effect, List.foldlM_cons, List.foldlM_nil,
      firecrackerStep, hk0, hk1, hxy, if_pos hl, if_neg hr]
    cases hfc : fcSide fc (fcSrcPts fc.w fc.h) ((img.h : ℚ) / 3)
        ((img.h : ℚ) / 3 / (fc.h : ℚ) * (fc.w : ℚ)) (lx, ly) img <;>
      simp [hfc]

/-! ### Claim C1: confidence gating -/

/-- C1 (amended): bug-eye, sunglasses and hat apply their effect exactly
when both required confidences are at least the threshold, and a skipped
detection returns the state unchanged without failing; the firecracker
gates each wrist side by a strict comparison, so a side whose confidence
is less than or equal to the threshold — including exact equality — is
skipped and leaves the image unchanged. -/
theorem gating_amended :
    (∀ (li ri : ℕ) (thr : ℚ) (st : Img3 × Img ℚ × Img ℚ) (pose : Pose),
      bugeyeStep li ri thr st pose
        = if thr ≤ kptScore pose li ∧ thr ≤ kptScore pose ri then
            bugeyeBody li ri st pose
          else st)
    ∧ (∀ (sg : Img3) (li ri : ℕ) (thr : ℚ) (img : Img3) (pose : Pose),
      sunglassesStep sg li ri thr img pose
        = if thr ≤ kptScore pose li ∧ thr ≤ kptScore pose ri then
            sunglassesBody sg li ri img pose
          else some img)
    ∧ (∀ (hat : Img4) (li ri : ℕ) (thr : ℚ) (img : Img3) (pose : Pose),
      hatStep hat li ri thr img pose
        = if thr ≤ kptScore pose li ∧ thr ≤ kptScore pose ri then
            hatBody hat li ri img pose
          else some img)
    ∧ (∀ (fc : Img3) (li ri : ℕ) (thr : ℚ) (src_pts : List (ℚ × ℚ))
        (h_tar w_tar : ℚ) (img : Img3) (pose : Pose),
      firecrackerStep fc li ri thr src_pts h_tar w_tar img pose
        = (if kptScore pose li ≤ thr then some img
           else fcSide fc src_pts h_tar w_tar (kptXY pose li) img).bind
            fun img1 =>
              if kptScore pose ri ≤ thr then some img1
              else fcSide fc src_pts h_tar w_tar (kptXY pose ri) img1) := by
  refine ⟨fun li ri thr st pose => ?_, fun sg li ri thr img pose => ?_,
    fun hat li ri thr img pose => ?_,
    fun fc li ri thr src_pts h_tar w_tar img pose => ?_⟩
  · by_cases h1 : kptScore pose li < thr
    · simp [bugeyeStep, h1, not_le.mpr h1]
    · by_cases h2 : kptScore pose ri < thr
      · simp [bugeyeStep, h1, h2, not_le.mpr h2]
      · simp [bugeyeStep, h1, h2, not_lt.mp h1, not_lt.mp h2]
  · by_cases h1 : kptScore pose li < thr
    · simp [sunglassesStep, h1, not_le.mpr h1]
    · by_cases h2 : kptScore pose ri < thr
      · simp [sunglassesStep, h1, h2, not_le.mpr h2]
      · simp [sunglassesStep, h1, h2, not_lt.mp h1, not_lt.mp h2]
  · by_cases h1 : kptScore pose li < thr
    · simp [hatStep, h1, not_le.mpr h1]
    · by_cases h2 : kptScore pose ri < thr
      · simp [hatStep, h1, h2, not_le.mpr h2]
      · simp [hatStep, h1, h2, not_lt.mp h1, not_lt.mp h2]
  · by_cases h1 : thr < kptScore pose li <;> by_cases h2 : thr < kptScore pose ri
    · simp [firecrackerStep, if_pos h1, if_pos h2, if_neg (not_le.mpr h1),
        if_neg (not_le.mpr h2)]
    · simp [firecrackerStep, if_pos h1, if_neg h2, if_neg (not_le.mpr h1),
        if_pos (not_lt.mp h2)]
    · simp [firecrackerStep, if_neg h1, if_pos h2, if_pos (not_lt.mp h1),
        if_neg (not_le.mpr h2)]
    · simp [firecrackerStep, if_neg h1, if_neg h2, if_pos (not_lt.mp h1),
        if_pos (not_lt.mp h2)]

set_option maxRecDepth 1000000 in
/-- C1 (counterexample): a left wrist whose confidence is exactly the
threshold meets the threshold, yet the firecracker code skips it — the
call returns the untouched image, while the overlay the claim mandates
would have changed it. -/
theorem gating_at_threshold_cex :
    apply_firecracker_effect imgC [poseC1] fcC 0 1 (1 / 2) = some imgC
    ∧ fcSide fcC (fcSrcPts fcC.w fcC.h) ((imgC.h : ℚ) / 3)
        ((imgC.h : ℚ) / 3 / (fcC.h : ℚ) * (fcC.w : ℚ)) (kptXY poseC1 0) imgC
      ≠ some imgC := by
  refine ⟨by with_unfolding_all rfl, fun h => ?_⟩
  have h2 := congrArg (fun o => (Option.getD o imgC).pix 1 1) h
  exact absurd h2 (by with_unfolding_all decide)

/-! ### Claim C2: sequential compounding across detections -/

/-- C2 (amended): for the three overlay effects the two-detection call is
the fold of the single-detection calls; the bug-eye effect violates this,
because its coordinate grid is built once per call and keeps accumulating
across detections. -/
theorem overlay_fold :
    (∀ (img : Img3) (d1 d2 : Pose) (sg : Img3) (li ri : ℕ) (thr : ℚ),
      apply_sunglasses_effect img [d1, d2] sg li ri thr
        = (apply_sunglasses_effect img [d1] sg li ri thr).bind
            fun i => apply_sunglasses_effect i [d2] sg li ri thr)
    ∧ (∀ (img : Img3) (d1 d2 : Pose) (hat : Img4) (li ri : ℕ) (thr : ℚ),
      apply_hat_effect img [d1, d2] hat li ri thr
        = (apply_hat_effect img [d1] hat li ri thr).bind
            fun i => apply_hat_effect i [d2] hat li ri thr)
    ∧ (∀ (img : Img3) (d1 d2 : Pose) (fc : Img3) (li ri : ℕ) (thr : ℚ),
      apply_firecracker_effect img [d1, d2] fc li ri thr
        = (apply_firecracker_effect img [d1] fc li ri thr).bind
            fun i => apply_firecracker_effect i [d2] fc li ri thr) := by
  refine ⟨fun img d1 d2 sg li ri thr => ?_, fun img d1 d2 hat li ri thr => ?_,
    fun img d1 d2 fc li ri thr => ?_⟩
  · cases h1 : sunglassesStep sg li ri thr img d1 <;>
      simp [apply_sunglasses_effect, List.foldlM_cons, List.foldlM_nil, h1]
  · cases h1 : hatStep hat li ri thr img d1 <;>
      simp [apply_hat_effect, List.foldlM_cons, List.foldlM_nil, h1]
  · cases h1 : firecrackerStep fc li ri thr (fcSrcPts fc.w fc.h)
        ((img.h : ℚ) / 3) ((img.h : ℚ) / 3 / (fc.h : ℚ) * (fc.w : ℚ)) img d1 with
    | none =>
      simp [apply_firecracker_effect, List.foldlM_cons, List.foldlM_nil, h1]
    | some i1 =>
      have hd := firecrackerStep_dims h1
      simp [apply_firecracker_effect, List.foldlM_cons, List.foldlM_nil, h1,
        hd.1]

set_option maxRecDepth 1000000 in
/-- C2 (counterexample): for the bug-eye effect with two eligible
detections, the single call on the two-detection list differs from the
sequential composition of the two single-detection calls — the remap
grid is not rebuilt between detections. -/
theorem bugeye_fold_cex :
    apply_bugeye_effect imgB [poseB1, poseB2] 0 1 (1 / 2)
      ≠ apply_bugeye_effect (apply_bugeye_effect imgB [poseB1] 0 1 (1 / 2))
          [poseB2] 0 1 (1 / 2) := by
  intro h
  have h2 := congrArg (fun im => im.pix 0 0) h
  exact absurd h2 (by with_unfolding_all decide)

/-! ### Claim C3: the bug-eye remap-field formula -/

/-- C3: for an eligible detection, the bug-eye step distorts the running
grid around the left eye and then, on the already-distorted grid, around
the right eye, with `scale` the squared bounding-box diagonal, `k1 =
0.001` and `epsilon = 1e-5`, and each single-anchor distortion updates
every grid entry by `new = (old - anchor) / (1 + k1 / r_norm) + anchor`
with `r_norm = (r^2 + epsilon) / scale`. -/
theorem bugeye_grid_formula :
    (∀ (li ri : ℕ) (thr : ℚ) (img : Img3) (xx yy : Img ℚ) (pose : Pose),
      ¬(kptScore pose li < thr ∨ kptScore pose ri < thr) →
      bugeyeStep li ri thr (img, xx, yy) pose
        = (let scale := (pose.bbox.2.2.1 - pose.bbox.1) ^ 2
              + (pose.bbox.2.2.2 - pose.bbox.2.1) ^ 2
           let g1 := distortGrids (1 / 1000) (1 / 100000) scale
              (kptXY pose li).1 (kptXY pose li).2 (xx, yy)
           let g2 := distortGrids (1 / 1000) (1 / 100000) scale
              (kptXY pose ri).1 (kptXY pose ri).2 g1
           (remap img g2.1 g2.2, g2.1, g2.2)))
    ∧ (∀ (k1 epe scale xc yc : ℚ) (g : Img ℚ × Img ℚ) (y x : ℕ),
      (distortGrids k1 epe scale xc yc g).1.pix y x
        = (g.1.pix y x - xc)
            / (1 + k1 / (((g.1.pix y x - xc) ^ 2 + (g.2.pix y x - yc) ^ 2
                + epe) / scale)) + xc
      ∧ (distortGrids k1 epe scale xc yc g).2.pix y x
        = (g.2.pix y x - yc)
            / (1 + k1 / (((g.1.pix y x - xc) ^ 2 + (g.2.pix y x - yc) ^ 2
                + epe) / scale)) + yc) := by
  constructor
  · intro li ri thr img xx yy pose hne
    simp only [bugeyeStep, if_neg hne, bugeyeBody, List.foldl_cons,
      List.foldl_nil]
  · intro k1 epe scale xc yc g y x
    exact ⟨rfl, rfl⟩

/-- Witness for C3: the eligibility hypothesis holds for the concrete
fully-confident pose, and the formula conjunct applies at concrete
arguments. -/
theorem bugeye_grid_formula_witness :
    (bugeyeStep 0 1 (1 / 2) (imgB, meshX imgB, meshY imgB) poseB1
      = (let scale := (poseB1.bbox.2.2.1 - poseB1.bbox.1) ^ 2
            + (poseB1.bbox.2.2.2 - poseB1.bbox.2.1) ^ 2
         let g1 := distortGrids (1 / 1000) (1 / 100000) scale
            (kptXY poseB1 0).1 (kptXY poseB1 0).2 (meshX imgB, meshY imgB)
         let g2 := distortGrids (1 / 1000) (1 / 100000) scale
            (kptXY poseB1 1).1 (kptXY poseB1 1).2 g1
         (remap imgB g2.1 g2.2, g2.1, g2.2)))
    ∧ ((distortGrids 1 1 1 0 0 (meshX imgB, meshY imgB)).1.pix 0 1
        = ((meshX imgB).pix 0 1 - 0)
            / (1 + 1 / ((((meshX imgB).pix 0 1 - 0) ^ 2
                + ((meshY imgB).pix 0 1 - 0) ^ 2 + 1) / 1)) + 0
      ∧ (distortGrids 1 1 1 0 0 (meshX imgB, meshY imgB)).2.pix 0 1
        = ((meshY imgB).pix 0 1 - 0)
            / (1 + 1 / ((((meshX imgB).pix 0 1 - 0) ^ 2
                + ((meshY imgB).pix 0 1 - 0) ^ 2 + 1) / 1)) + 0) :=
  ⟨bugeye_grid_formula.1 0 1 (1 / 2) imgB (meshX imgB) (meshY imgB) poseB1
      (by with_unfolding_all decide),
   bugeye_grid_formula.2 1 1 1 0 0 (meshX imgB, meshY imgB) 0 1⟩

/-! ### Claim C9: spatial dimensions are preserved -/

/-- C9: every effect returns an image with exactly the height and width
of the input scene image; no operation inside an effect pass changes the
working frame size. -/
theorem dims_preserved :
    (∀ (img : Img3) (poses : List Pose) (li ri : ℕ) (thr : ℚ),
      (apply_bugeye_effect img poses li ri thr).h = img.h
      ∧ (apply_bugeye_effect img poses li ri thr).w = img.w)
    ∧ (∀ (img : Img3) (poses : List Pose) (sg : Img3) (li ri : ℕ) (thr : ℚ)
        (out : Img3), apply_sunglasses_effect img poses sg li ri thr = some out →
      out.h = img.h ∧ out.w = img.w)
    ∧ (∀ (img : Img3) (poses : List Pose) (hat : Img4) (li ri : ℕ) (thr : ℚ)
        (out : Img3), apply_hat_effect img poses hat li ri thr = some out →
      out.h = img.h ∧ out.w = img.w)
    ∧ (∀ (img : Img3) (poses : List Pose) (fc : Img3) (li ri : ℕ) (thr : ℚ)
        (out : Img3), apply_firecracker_effect img poses fc li ri thr = some out →
      out.h = img.h ∧ out.w = img.w) := by
  refine ⟨fun img poses li ri thr => ?_, fun img poses sg li ri thr out h => ?_,
    fun img poses hat li ri thr out h => ?_,
    fun img poses fc li ri thr out h => ?_⟩
  · exact bugeye_foldl_dims li ri thr img.h img.w poses
      (img, meshX img, meshY img) rfl rfl rfl rfl rfl rfl
  · exact foldlM_dims (fun i p o ho => sunglassesStep_dims ho) poses img out h
  · exact foldlM_dims (fun i p o ho => hatStep_dims ho) poses img out h
  · exact foldlM_dims (fun i p o ho => firecrackerStep_dims ho) poses img out h

/-- Witness for C9: the hypotheses of the three overlay conjuncts hold at
a one-detection run over an ineligible pose, which returns the scene
image unchanged. -/
theorem dims_preserved_witness :
    ((apply_bugeye_effect imgB [poseB1] 0 1 (1 / 2)).h = imgB.h
      ∧ (apply_bugeye_effect imgB [poseB1] 0 1 (1 / 2)).w = imgB.w)
    ∧ (imgC.h = imgC.h ∧ imgC.w = imgC.w)
    ∧ (imgC.h = imgC.h ∧ imgC.w = imgC.w)
    ∧ (imgC.h = imgC.h ∧ imgC.w = imgC.w) :=
  ⟨dims_preserved.1 imgB [poseB1] 0 1 (1 / 2),
   dims_preserved.2.1 imgC [poseSkip] fcC 0 1 (1 / 2) imgC
     (by with_unfolding_all rfl),
   dims_preserved.2.2.1 imgC [poseSkip] hatC 0 1 (1 / 2) imgC
     (by with_unfolding_all rfl),
   dims_preserved.2.2.2 imgC [poseC1] fcC 0 1 (1 / 2) imgC
     (by with_unfolding_all rfl)⟩

/-! ### Claim C7: homography round-trip -/

theorem applyMat3_eq_of (H : Mat3) (s t : ℚ × ℚ)
    (hu : H.m11 * s.1 + H.m12 * s.2 + H.m13
      = t.1 * (H.m31 * s.1 + H.m32 * s.2 + H.m33))
    (hv : H.m21 * s.1 + H.m22 * s.2 + H.m23
      = t.2 * (H.m31 * s.1 + H.m32 * s.2 + H.m33))
    (hd : H.m31 * s.1 + H.m32 * s.2 + H.m33 ≠ 0) :
    applyMat3 H s = t := by
  unfold applyMat3
  have h1 : (H.m11 * s.1 + H.m12 * s.2 + H.m13)
      / (H.m31 * s.1 + H.m32 * s.2 + H.m33) = t.1 := by
    rw [div_eq_iff hd]; exact hu
  have h2 : (H.m21 * s.1 + H.m22 * s.2 + H.m23)
      / (H.m31 * s.1 + H.m32 * s.2 + H.m33) = t.2 := by
    rw [div_eq_iff hd]; exact hv
  exact Prod.ext h1 h2

/-- C7: whenever the homography solver succeeds on a four-point
correspondence and none of the four source points is sent to infinity,
applying the computed matrix to each source anchor reproduces the paired
target anchor exactly, over exact rational arithmetic. -/
theorem homography_roundtrip :
    ∀ (s1 s2 s3 s4 t1 t2 t3 t4 : ℚ × ℚ) (H : Mat3),
      findHomography [s1, s2, s3, s4] [t1, t2, t3, t4] = some H →
      H.m31 * s1.1 + H.m32 * s1.2 + H.m33 ≠ 0 →
      H.m31 * s2.1 + H.m32 * s2.2 + H.m33 ≠ 0 →
      H.m31 * s3.1 + H.m32 * s3.2 + H.m33 ≠ 0 →
      H.m31 * s4.1 + H.m32 * s4.2 + H.m33 ≠ 0 →
      applyMat3 H s1 = t1 ∧ applyMat3 H s2 = t2
        ∧ applyMat3 H s3 = t3 ∧ applyMat3 H s4 = t4 := by
  intro s1 s2 s3 s4 t1 t2 t3 t4 H hH hd1 hd2 hd3 hd4
  unfold findHomography at hH
  split at hH
  · exact absurd hH (by simp)
  · rename_i sol hg
    dsimp only [] at hH
    split at hH
    · rename_i hok
      obtain rfl : mkH sol = H := Option.some.inj hH
      have hzip : List.zip [s1, s2, s3, s4] [t1, t2, t3, t4]
          = [(s1, t1), (s2, t2), (s3, t3), (s4, t4)] := rfl
      rw [hzip] at hok
      simp only [homogOK, List.all_cons, List.all_nil, Bool.and_eq_true,
        decide_eq_true_eq, and_true] at hok
      obtain ⟨⟨e1u, e1v⟩, ⟨e2u, e2v⟩, ⟨e3u, e3v⟩, ⟨e4u, e4v⟩⟩ := hok
      exact ⟨applyMat3_eq_of _ _ _ e1u e1v hd1,
        applyMat3_eq_of _ _ _ e2u e2v hd2,
        applyMat3_eq_of _ _ _ e3u e3v hd3,
        applyMat3_eq_of _ _ _ e4u e4v hd4⟩
    · exact absurd hH (by simp)

set_option maxRecDepth 1000000 in
/-- Witness for C7: a concrete non-degenerate correspondence sending the
unit square to a proper quadrilateral, solved and checked concretely. -/
theorem homography_roundtrip_witness :
    findHomography [((0 : ℚ), (0 : ℚ)), (0, 1), (1, 0), (1, 1)]
        [((0 : ℚ), (0 : ℚ)), (0, 1), (1, 0), (2, 2)]
      = some ⟨2 / 3, 0, 0, 0, 2 / 3, 0, -1 / 3, -1 / 3, 1⟩
    ∧ applyMat3 ⟨2 / 3, 0, 0, 0, 2 / 3, 0, -1 / 3, -1 / 3, 1⟩ (0, 0) = (0, 0)
    ∧ applyMat3 ⟨2 / 3, 0, 0, 0, 2 / 3, 0, -1 / 3, -1 / 3, 1⟩ (0, 1) = (0, 1)
    ∧ applyMat3 ⟨2 / 3, 0, 0, 0, 2 / 3, 0, -1 / 3, -1 / 3, 1⟩ (1, 0) = (1, 0)
    ∧ applyMat3 ⟨2 / 3, 0, 0, 0, 2 / 3, 0, -1 / 3, -1 / 3, 1⟩ (1, 1) = (2, 2) := by
  have hH : findHomography [((0 : ℚ), (0 : ℚ)), (0, 1), (1, 0), (1, 1)]
      [((0 : ℚ), (0 : ℚ)), (0, 1), (1, 0), (2, 2)]
      = some ⟨2 / 3, 0, 0, 0, 2 / 3, 0, -1 / 3, -1 / 3, 1⟩ := by
    with_unfolding_all decide
  have hr := homography_roundtrip (0, 0) (0, 1) (1, 0) (1, 1)
    (0, 0) (0, 1) (1, 0) (2, 2) _ hH (by norm_num) (by norm_num)
    (by norm_num) (by norm_num)
  exact ⟨hH, hr.1, hr.2.1, hr.2.2.1, hr.2.2.2⟩

/-! ### Claim C10: buffer aliasing -/

theorem heapLoop_compat {hstep : Store × ℕ × ℕ → Pose → Option (Store × ℕ × ℕ)}
    {pstep : Img3 → Pose → Option Img3}
    (hc : ∀ (σ : Store) (n r : ℕ) (p : Pose) (σ' : Store) (n' r' : ℕ),
      r < n → hstep (σ, n, r) p = some (σ', n', r') →
      r' = r ∧ n ≤ n' ∧ (∀ m, m ≠ r → m < n → σ' m = σ m)
        ∧ pstep (σ r) p = some (σ' r)) :
    ∀ (poses : List Pose) (σ : Store) (n r : ℕ) (σ2 : Store) (n2 r2 : ℕ),
      r < n →
      List.foldlM hstep (σ, n, r) poses = some (σ2, n2, r2) →
      r2 = r ∧ n ≤ n2 ∧ (∀ m, m ≠ r → m < n → σ2 m = σ m)
        ∧ List.foldlM pstep (σ r) poses = some (σ2 r) := by
  intro poses
  induction poses with
  | nil =>
    intro σ n r σ2 n2 r2 hrn h
    simp only [List.foldlM_nil, pure, Option.some.injEq, Prod.mk.injEq] at h
    obtain ⟨hσ, hn, hr⟩ := h
    subst hσ; subst hn; subst hr
    exact ⟨rfl, le_refl _, fun _ _ _ => rfl, rfl⟩
  | cons p l ih =>
    intro σ n r σ2 n2 r2 hrn h
    rw [List.foldlM_cons] at h
    cases hs : hstep (σ, n, r) p with
    | none => rw [hs] at h; exact absurd h (by simp)
    | some st1 =>
      obtain ⟨σ1, n1, r1⟩ := st1
      rw [hs] at h
      simp only [Option.bind_eq_bind, Option.some_bind] at h
      obtain ⟨hr1, hn1, hpres1, hp1⟩ := hc σ n r p σ1 n1 r1 hrn hs
      rw [hr1] at h
      obtain ⟨hr2, hn2, hpres2, hfold⟩ :=
        ih σ1 n1 r σ2 n2 r2 (lt_of_lt_of_le hrn hn1) h
      refine ⟨hr2, le_trans hn1 hn2, ?_, ?_⟩
      · intro m hm hmn
        rw [hpres2 m hm (lt_of_lt_of_le hmn hn1), hpres1 m hm hmn]
      · rw [List.foldlM_cons, hp1]
        simpa only [Option.bind_eq_bind, Option.some_bind] using hfold

theorem heapSunglassesStep_compat (sg : Img3) (li ri : ℕ) (thr : ℚ) :
    ∀ (σ : Store) (n r : ℕ) (p : Pose) (σ' : Store) (n' r' : ℕ),
      r < n → heapSunglassesStep sg li ri thr (σ, n, r) p = some (σ', n', r') →
      r' = r ∧ n ≤ n' ∧ (∀ m, m ≠ r → m < n → σ' m = σ m)
        ∧ sunglassesStep sg li ri thr (σ r) p = some (σ' r) := by
  intro σ n r p σ' n' r' hrn h
  unfold heapSunglassesStep at h
  by_cases hg : kptScore p li < thr ∨ kptScore p ri < thr
  · rw [if_pos hg] at h
    simp only [Option.some.injEq, Prod.mk.injEq] at h
    obtain ⟨hσ, hn, hr⟩ := h
    subst hσ; subst hn; subst hr
    exact ⟨rfl, le_refl _, fun _ _ _ => rfl, by simp [sunglassesStep, hg]⟩
  · rw [if_neg hg] at h
    dsimp only [] at h
    cases hH : findHomography (sunglassesSrcPts sg.w sg.h)
        (sunglassesTarPts (kptXY p li) (kptXY p ri)) with
    | none => rw [hH] at h; exact absurd h (by simp)
    | some hmat =>
      rw [hH] at h
      simp only [Option.some.injEq, Prod.mk.injEq] at h
      obtain ⟨hσ, hn, hr⟩ := h
      subst hσ; subst hn; subst hr
      refine ⟨rfl, Nat.le_succ n, ?_, ?_⟩
      · intro m hm hmn
        rw [Function.update_noteq hm, Function.update_noteq (Nat.ne_of_lt hmn)]
      · rw [Function.update_same]
        simp [sunglassesStep, hg, sunglassesBody, hH]

theorem heapHatStep_compat (hat : Img4) (li ri : ℕ) (thr : ℚ) :
    ∀ (σ : Store) (n r : ℕ) (p : Pose) (σ' : Store) (n' r' : ℕ),
      r < n → heapHatStep hat li ri thr (σ, n, r) p = some (σ', n', r') →
      r' = r ∧ n ≤ n' ∧ (∀ m, m ≠ r → m < n → σ' m = σ m)
        ∧ hatStep hat li ri thr (σ r) p = some (σ' r) := by
  intro σ n r p σ' n' r' hrn h
  unfold heapHatStep at h
  by_cases hg : kptScore p li < thr ∨ kptScore p ri < thr
  · rw [if_pos hg] at h
    simp only [Option.some.injEq, Prod.mk.injEq] at h
    obtain ⟨hσ, hn, hr⟩ := h
    subst hσ; subst hn; subst hr
    exact ⟨rfl, le_refl _, fun _ _ _ => rfl, by simp [hatStep, hg]⟩
  · rw [if_neg hg] at h
    dsimp only [] at h
    cases hH : findHomography (hatSrcPts hat.w hat.h)
        (hatTarPts (kptXY p li) (kptXY p ri)) with
    | none => rw [hH] at h; exact absurd h (by simp)
    | some hmat =>
      rw [hH] at h
      simp only [Option.some.injEq, Prod.mk.injEq] at h
      obtain ⟨hσ, hn, hr⟩ := h
      subst hσ; subst hn; subst hr
      refine ⟨rfl, Nat.le_succ n, ?_, ?_⟩
      · intro m hm hmn
        rw [Function.update_noteq hm, Function.update_noteq (Nat.ne_of_lt hmn)]
      · rw [Function.update_same]
        simp [hatStep, hg, hatBody, hH]

theorem heapFcSide_compat (fc : Img3) (src_pts : List (ℚ × ℚ))
    (h_tar w_tar : ℚ) (wrist : ℚ × ℚ) :
    ∀ (σ : Store) (n r : ℕ) (σ' : Store) (n' r' : ℕ),
      r < n → heapFcSide fc src_pts h_tar w_tar wrist (σ, n, r) = some (σ', n', r') →
      r' = r ∧ n ≤ n' ∧ (∀ m, m ≠ r → m < n → σ' m = σ m)
        ∧ fcSide fc src_pts h_tar w_tar wrist (σ r) = some (σ' r) := by
  intro σ n r σ' n' r' hrn h
  unfold heapFcSide at h
  dsimp only [] at h
  cases hH : findHomography src_pts (fcTarPts wrist h_tar w_tar) with
  | none => rw [hH] at h; exact absurd h (by simp)
  | some hmat =>
    rw [hH] at h
    simp only [Option.some.injEq, Prod.mk.injEq] at h
    obtain ⟨hσ, hn, hr⟩ := h
    subst hσ; subst hn; subst hr
    refine ⟨rfl, Nat.le_succ n, ?_, ?_⟩
    · intro m hm hmn
      rw [Function.update_noteq hm, Function.update_noteq (Nat.ne_of_lt hmn)]
    · rw [Function.update_same]
      simp [fcSide, hH]

theorem heapFcStep_compat (fc : Img3) (li ri : ℕ) (thr : ℚ)
    (src_pts : List (ℚ × ℚ)) (h_tar w_tar : ℚ) :
    ∀ (σ : Store) (n r : ℕ) (p : Pose) (σ' : Store) (n' r' : ℕ),
      r < n →
      heapFcStep fc li ri thr src_pts h_tar w_tar (σ, n, r) p = some (σ', n', r') →
      r' = r ∧ n ≤ n' ∧ (∀ m, m ≠ r → m < n → σ' m = σ m)
        ∧ firecrackerStep fc li ri thr src_pts h_tar w_tar (σ r) p = some (σ' r) := by
  intro σ n r p σ' n' r' hrn h
  unfold heapFcStep at h
  unfold firecrackerStep
  by_cases h1 : thr < kptScore p li
  · rw [if_pos h1] at h ⊢
    cases hs1 : heapFcSide fc src_pts h_tar w_tar (kptXY p li) (σ, n, r) with
    | none => rw [hs1] at h; exact absurd h (by simp)
    | some st1 =>
      obtain ⟨σ1, n1, r1⟩ := st1
      rw [hs1] at h
      simp only [Option.some_bind] at h
      obtain ⟨hr1, hn1, hpres1, hp1⟩ :=
        heapFcSide_compat fc src_pts h_tar w_tar (kptXY p li) σ n r σ1 n1 r1
          hrn hs1
      rw [hr1] at h
      rw [hp1]
      simp only [Option.some_bind]
      by_cases h2 : thr < kptScore p ri
      · rw [if_pos h2] at h ⊢
        obtain ⟨hr2, hn2, hpres2, hp2⟩ :=
          heapFcSide_compat fc src_pts h_tar w_tar (kptXY p ri) σ1 n1 r σ' n' r'
            (lt_of_lt_of_le hrn hn1) h
        exact ⟨hr2, le_trans hn1 hn2,
          fun m hm hmn =>
            (hpres2 m hm (lt_of_lt_of_le hmn hn1)).trans (hpres1 m hm hmn),
          hp2⟩
      · rw [if_neg h2] at h ⊢
        simp only [Option.some.injEq, Prod.mk.injEq] at h
        obtain ⟨hσ, hn, hr⟩ := h
        subst hσ; subst hn; subst hr
        exact ⟨rfl, hn1, hpres1, rfl⟩
  · rw [if_neg h1] at h ⊢
    simp only [Option.some_bind] at h ⊢
    by_cases h2 : thr < kptScore p ri
    · rw [if_pos h2] at h ⊢
      exact heapFcSide_compat fc src_pts h_tar w_tar (kptXY p ri) σ n r σ' n' r'
        hrn h
    · rw [if_neg h2] at h ⊢
      simp only [Option.some.injEq, Prod.mk.injEq] at h
      obtain ⟨hσ, hn, hr⟩ := h
      subst hσ; subst hn; subst hr
      exact ⟨rfl, le_refl _, fun _ _ _ => rfl, rfl⟩

/-- C10: run over the buffer store, the hat effect never writes the
caller's buffer — it returns a different, freshly allocated buffer whose
final content is the pure result — whereas the sunglasses and firecracker
effects return the caller's own buffer id, whose final content is the
pure result of the call, so the caller's array and the returned array are
the same object. -/
theorem buffer_aliasing :
    (∀ (hat : Img4) (li ri : ℕ) (thr : ℚ) (σ : Store) (n r : ℕ)
        (poses : List Pose) (σ2 : Store) (n2 r2 : ℕ),
      r < n → heapHatRun σ n r poses hat li ri thr = some (σ2, n2, r2) →
      σ2 r = σ r ∧ r2 ≠ r
        ∧ apply_hat_effect (σ r) poses hat li ri thr = some (σ2 r2))
    ∧ (∀ (sg : Img3) (li ri : ℕ) (thr : ℚ) (σ : Store) (n r : ℕ)
        (poses : List Pose) (σ2 : Store) (n2 r2 : ℕ),
      r < n → heapSunglassesRun σ n r poses sg li ri thr = some (σ2, n2, r2) →
      r2 = r ∧ apply_sunglasses_effect (σ r) poses sg li ri thr = some (σ2 r))
    ∧ (∀ (fc : Img3) (li ri : ℕ) (thr : ℚ) (σ : Store) (n r : ℕ)
        (poses : List Pose) (σ2 : Store) (n2 r2 : ℕ),
      r < n → heapFcRun σ n r poses fc li ri thr = some (σ2, n2, r2) →
      r2 = r ∧ apply_firecracker_effect (σ r) poses fc li ri thr = some (σ2 r)) := by
  refine ⟨?_, ?_, ?_⟩
  · intro hat li ri thr σ n r poses σ2 n2 r2 hrn h
    unfold heapHatRun at h
    dsimp only [] at h
    obtain ⟨hr2, hn2, hpres, hfold⟩ :=
      heapLoop_compat (heapHatStep_compat hat li ri thr) poses
        (Function.update (Function.update σ n (σ r)) (n + 1)
          (Function.update σ n (σ r) n))
        (n + 2) (n + 1) σ2 n2 r2 (by omega) h
    have hwork : Function.update (Function.update σ n (σ r)) (n + 1)
        (Function.update σ n (σ r) n) (n + 1) = σ r := by
      rw [Function.update_same, Function.update_same]
    refine ⟨?_, ?_, ?_⟩
    · have h1 := hpres r (by omega) (by omega)
      rw [h1, Function.update_noteq (by omega), Function.update_noteq (by omega)]
    · rw [hr2]; omega
    · rw [hr2]
      rw [hwork] at hfold
      exact hfold
  · intro sg li ri thr σ n r poses σ2 n2 r2 hrn h
    obtain ⟨hr2, _, _, hfold⟩ :=
      heapLoop_compat (heapSunglassesStep_compat sg li ri thr) poses σ n r
        σ2 n2 r2 hrn h
    exact ⟨hr2, hfold⟩
  · intro fc li ri thr σ n r poses σ2 n2 r2 hrn h
    unfold heapFcRun at h
    dsimp only [] at h
    obtain ⟨hr2, _, _, hfold⟩ :=
      heapLoop_compat
        (heapFcStep_compat fc li ri thr (fcSrcPts fc.w fc.h)
          (((σ r).h : ℚ) / 3) (((σ r).h : ℚ) / 3 / (fc.h : ℚ) * (fc.w : ℚ)))
        poses σ n r σ2 n2 r2 hrn h
    exact ⟨hr2, hfold⟩

/-- Witness for C10: one ineligible detection, run over the concrete
store, with the caller's image in buffer 0. -/
theorem buffer_aliasing_witness :
    (Function.update (Function.update storeC 1 (storeC 0)) 2
        (Function.update storeC 1 (storeC 0) 1) 0 = storeC 0
      ∧ (2 : ℕ) ≠ 0
      ∧ apply_hat_effect (storeC 0) [poseSkip] hatC 0 1 (1 / 2)
        = some (Function.update (Function.update storeC 1 (storeC 0)) 2
            (Function.update storeC 1 (storeC 0) 1) 2))
    ∧ ((0 : ℕ) = 0
      ∧ apply_sunglasses_effect (storeC 0) [poseSkip] fcC 0 1 (1 / 2)
        = some (storeC 0))
    ∧ ((0 : ℕ) = 0
      ∧ apply_firecracker_effect (storeC 0) [poseSkip] fcC 0 1 (1 / 2)
        = some (storeC 0)) :=
  ⟨buffer_aliasing.1 hatC 0 1 (1 / 2) storeC 1 0 [poseSkip]
      (Function.update (Function.update storeC 1 (storeC 0)) 2
        (Function.update storeC 1 (storeC 0) 1)) 3 2
      (by decide) (by with_unfolding_all rfl),
   buffer_aliasing.2.1 fcC 0 1 (1 / 2) storeC 1 0 [poseSkip] storeC 1 0
      (by decide) (by with_unfolding_all rfl),
   buffer_aliasing.2.2 fcC 0 1 (1 / 2) storeC 1 0 [poseSkip] storeC 1 0
      (by decide) (by with_unfolding_all rfl)⟩

end Effects
